import Mathlib

/-!
Verification of the control logic of the IMDb BERT sentiment notebook
(`Portfolio_Assignment_2_.ipynb`): dataset filtering and subsampling,
mini-batching, the checkpoint/early-stop controller of the training loop,
the evaluation metrics, and the inference endpoint `classify_text`.

Floating-point scalars are modelled as rationals for the control logic
(only comparisons and exact divisions matter there) and as reals for the
softmax of the inference path; Python's `float("inf")` initial best loss
is the `none` case of an `Option`.
-/

namespace ImdbBert

/-! ## Data model -/

/-- An Example of the raw dataset: `{text, label}` with `negative = 0`,
`positive = 1`. -/
structure Example where
  text : String
  label : ℕ
  deriving DecidableEq, Repr

/-- An Encoded Example after tokenization: parallel `input_ids` and
`attention_mask` sequences plus the label (the `text` column is removed). -/
structure EncodedExample where
  input_ids : List ℕ
  attention_mask : List ℕ
  label : ℕ
  deriving DecidableEq, Repr

/-! ## Dataset preparation -/

/-- Counter of whitespace-separated tokens of a character list, exactly as
Python's `len(text.split())` counts them: maximal runs of non-whitespace
characters.  The Boolean argument records whether the scan is currently
inside such a run. -/
def countWordsAux : Bool → List Char → ℕ
  | _, [] => 0
  | inWord, c :: cs =>
    if c.isWhitespace then countWordsAux false cs
    else (if inWord then 0 else 1) + countWordsAux true cs

/-- Word count of a text: `len(example["text"].split())`. -/
def pyWordCount (s : String) : ℕ := countWordsAux false s.data

/-- The notebook's filter predicate:
`def filter_under_300_words(example): return len(example["text"].split()) < 300`. -/
def filter_under_300_words (e : Example) : Bool := pyWordCount e.text < 300

/-- `ds.filter(filter_under_300_words)`: keep the examples passing the
predicate, in order. -/
def filterDataset (ds : List Example) : List Example :=
  ds.filter filter_under_300_words

/-- The fixed subsample size of every partition (`select(range(3000))`). -/
def subsampleSize : ℕ := 3000

/-- Modelled from the spec: the outside datasets library's
`shuffle(seed=42).select(range(n))` step.  `select` is not part of the
repository's own code; per the spec it "fails (signals insufficient data)
if a filtered partition has fewer than `N` examples", and otherwise
returns the first `n` rows of the (already shuffled) dataset.  The seeded
shuffle itself is that library's permutation and enters the
theorems only through permutation hypotheses. -/
def selectRange {α : Type} (l : List α) (n : ℕ) : Except String (List α) :=
  if n ≤ l.length then Except.ok (l.take n) else Except.error "insufficient data"

/-- Partition construction applied to an already filtered-and-shuffled
pool: `pool.shuffle(seed=42).select(range(3000))`. -/
def buildPartition (shuffledPool : List Example) : Except String (List Example) :=
  selectRange shuffledPool subsampleSize

/-! ## Batch source -/

/-- Chunk a list into consecutive groups of `B` elements (the last group
may be shorter).  The first argument is structural fuel; it is always
instantiated with the length of the list. -/
def chunkFuel {α : Type} (B : ℕ) : ℕ → List α → List (List α)
  | _, [] => []
  | 0, _ :: _ => []
  | fuel + 1, x :: xs => ((x :: xs).take B) :: chunkFuel B fuel ((x :: xs).drop B)

/-- All consecutive batches of size `B` of a list (last one possibly
shorter). -/
def chunkList {α : Type} (B : ℕ) (l : List α) : List (List α) :=
  chunkFuel B l.length l

/-- The batch structure produced by a PyTorch `DataLoader` over a dataset
in its iteration order: consecutive groups of `B` examples; with
`drop_last` the final incomplete batch is omitted, which is the same as
chunking only the first `B * (n / B)` examples. -/
def dataLoaderBatches {α : Type} (B : ℕ) (dropLast : Bool) (l : List α) : List (List α) :=
  if dropLast then chunkList B (l.take (B * (l.length / B))) else chunkList B l

/-- `batch_size=8` of both notebook dataloaders. -/
def batchSize : ℕ := 8

/-- `drop_last=True` of `train_dataloader`. -/
def trainDropLast : Bool := true

/-- `drop_last=False` of `val_dataloader`. -/
def valDropLast : Bool := false

/-! ## Training-loop configuration and the loss averages -/

/-- The runtime errors relevant to the averaging step: Python's
`ZeroDivisionError`, and the configuration-error signal the spec asks for
(which the notebook never produces). -/
inductive PyError where
  | zeroDivisionError
  | configError
  deriving DecidableEq, Repr

/-- The values computed before the training loop starts. -/
structure TrainConfig where
  numTrainingSteps : ℕ
  deriving DecidableEq, Repr

/-- `num_epochs = 5`. -/
def numEpochs : ℕ := 5

/-- The notebook's pre-loop setup: it builds the optimizer and the linear
schedule with `num_training_steps = num_epochs * len(train_dataloader)`
and performs no validation whatsoever of the partition or batch sizes. -/
def trainSetup (trainData : List EncodedExample) : Except PyError TrainConfig :=
  Except.ok { numTrainingSteps := numEpochs * (dataLoaderBatches batchSize trainDropLast trainData).length }

/-- The per-epoch average computed by the notebook,
`avg_loss = total_loss / len(dataloader)`: Python raises
`ZeroDivisionError` when the dataloader is empty, and otherwise returns
the exact quotient. -/
def epochAvgLoss (total : ℚ) (nBatches : ℕ) : Except PyError ℚ :=
  if nBatches = 0 then Except.error PyError.zeroDivisionError
  else Except.ok (total / (nBatches : ℚ))

/-! ## Checkpoint and early-stop controller -/

/-- The signal returned to the training loop each epoch: `Stop` is the
`break` of the early-stopping branch. -/
inductive Signal where
  | Continue
  | Stop
  deriving DecidableEq, Repr

/-- The controller state: `best_val_loss` (with `none` for the initial
`float("inf")`), the patience `counter`, and the single retained
checkpoint slot (`best_model.pth`), recorded as the index of the epoch
whose model state it snapshots. -/
structure ESState where
  best : Option ℚ
  counter : ℕ
  checkpoint : Option ℕ
  deriving DecidableEq, Repr

/-- `patience = 2`. -/
def patience : ℕ := 2

/-- The comparison `avg_val_loss < best_val_loss` (anything is below the
initial infinity). -/
def improves (l : ℚ) (best : Option ℚ) : Bool :=
  match best with
  | none => true
  | some b => decide (l < b)

/-- One observation of `avg_val_loss` at the end of epoch `epoch`,
exactly as the notebook's early-stopping check: on improvement update the
best loss, reset the counter, overwrite the checkpoint and continue;
otherwise increment the counter and stop once it reaches `patience`. -/
def observe (s : ESState) (epoch : ℕ) (l : ℚ) : ESState × Signal :=
  if improves l s.best then
    ({ best := some l, counter := 0, checkpoint := some epoch }, Signal.Continue)
  else
    ({ s with counter := s.counter + 1 },
      if patience ≤ s.counter + 1 then Signal.Stop else Signal.Continue)

/-- The state at training start: `best_val_loss = float("inf")`,
`counter = 0`, no checkpoint written yet. -/
def initES : ESState := { best := none, counter := 0, checkpoint := none }

/-- Run the controller over a sequence of per-epoch validation losses,
recording state and signal after each executed epoch; a `Stop` signal
ends the run (the `break`). -/
def runES : ESState → ℕ → List ℚ → List (ESState × Signal)
  | _, _, [] => []
  | s, e, l :: ls =>
    let r := observe s e l
    match r.2 with
    | Signal.Continue => r :: runES r.1 (e + 1) ls
    | Signal.Stop => [r]

/-- The controller state after observing a list of losses when no stop
intervenes (states only, signals dropped). -/
def foldES : ESState → ℕ → List ℚ → ESState
  | s, _, [] => s
  | s, e, l :: ls => foldES (observe s e l).1 (e + 1) ls

/-! ## Evaluation metrics -/

/-- Number of positions where prediction equals label. -/
def countCorrect (labels preds : List ℕ) : ℕ :=
  (labels.zip preds).countP (fun q => q.1 == q.2)

/-- True positives of the binary positive class `1`. -/
def countTP (labels preds : List ℕ) : ℕ :=
  (labels.zip preds).countP (fun q => q.1 == 1 && q.2 == 1)

/-- False positives: predicted `1` with a non-positive label. -/
def countFP (labels preds : List ℕ) : ℕ :=
  (labels.zip preds).countP (fun q => !(q.1 == 1) && q.2 == 1)

/-- False negatives: positive label predicted non-positive. -/
def countFN (labels preds : List ℕ) : ℕ :=
  (labels.zip preds).countP (fun q => q.1 == 1 && !(q.2 == 1))

/-- `accuracy_score`: fraction of correct predictions.  (On the empty
input this rational is the junk value `0/0 = 0`; the notebook only ever
calls it on the nonempty collected sequences.) -/
def accuracy_score (labels preds : List ℕ) : ℚ :=
  (countCorrect labels preds : ℚ) / ((labels.zip preds).length : ℚ)

/-- `precision_score(average="binary")` with sklearn's zero-division
convention: `TP / (TP + FP)`, and `0` when no positive was predicted. -/
def precision_score (labels preds : List ℕ) : ℚ :=
  if countTP labels preds + countFP labels preds = 0 then 0
  else (countTP labels preds : ℚ) / ((countTP labels preds : ℚ) + (countFP labels preds : ℚ))

/-- `recall_score(average="binary")` with sklearn's zero-division
convention: `TP / (TP + FN)`, and `0` when no positive label occurs. -/
def recall_score (labels preds : List ℕ) : ℚ :=
  if countTP labels preds + countFN labels preds = 0 then 0
  else (countTP labels preds : ℚ) / ((countTP labels preds : ℚ) + (countFN labels preds : ℚ))

/-- `f1_score(average="binary")` as sklearn computes it,
`2·TP / (2·TP + FP + FN)`, with the zero-division convention `0`. -/
def f1_score (labels preds : List ℕ) : ℚ :=
  if 2 * countTP labels preds + countFP labels preds + countFN labels preds = 0 then 0
  else (2 * (countTP labels preds : ℚ)) /
    (2 * (countTP labels preds : ℚ) + (countFP labels preds : ℚ) + (countFN labels preds : ℚ))

/-! ## Inference service -/

/-- `F.softmax(outputs.logits, dim=-1)` for the two class logits. -/
noncomputable def softmax2 (a b : ℝ) : ℝ × ℝ :=
  (Real.exp a / (Real.exp a + Real.exp b), Real.exp b / (Real.exp a + Real.exp b))

/-- `torch.argmax` over a pair of scores: index of the maximum, first
index on a tie. -/
noncomputable def argmaxPair (p : ℝ × ℝ) : ℕ :=
  if p.1 < p.2 then 1 else 0

/-- The prediction of `classify_text`: `torch.argmax(probabilities)`. -/
noncomputable def classifyPrediction (a b : ℝ) : ℕ :=
  argmaxPair (softmax2 a b)

/-- The prediction of the evaluation and test loops:
`torch.argmax(outputs.logits)`, directly over the raw logits. -/
noncomputable def evalPrediction (a b : ℝ) : ℕ :=
  argmaxPair (a, b)

/-- The confidence of `classify_text`: `probabilities[0][prediction]`. -/
noncomputable def classifyConfidence (a b : ℝ) : ℝ :=
  if classifyPrediction a b = 1 then (softmax2 a b).2 else (softmax2 a b).1

/-- The fixed label mapping: `"Positive" if prediction == 1 else "Negative"`. -/
def labelOf (pred : ℕ) : String :=
  if pred = 1 then "Positive" else "Negative"

/-- The hundredths shown by the `f"{confidence:.2f}"` format, modelled
with round-half-up (Python's format rounds exact halves to even; no
theorem here depends on the treatment of exact halves). -/
noncomputable def confRounded (x : ℝ) : ℤ := ⌊x * 100 + 1 / 2⌋

/-- Decimal rendering of a number of hundredths, e.g. `87 ↦ "0.87"`. -/
def renderHundredths (n : ℤ) : String :=
  toString (n / 100) ++ "." ++
    (if n % 100 < 10 then "0" ++ toString (n % 100) else toString (n % 100))

/-- The notebook's `classify_text` endpoint applied to the two logits the
abstract model returns for the input text: softmax, argmax, label mapping,
and the rendered `"<Label> (<confidence:.2f> confidence)"` string. -/
noncomputable def classify_text (a b : ℝ) : String :=
  labelOf (classifyPrediction a b) ++ " (" ++
    renderHundredths (confRounded (classifyConfidence a b)) ++ " confidence)"

/-- A concrete encoded example used by witnesses. -/
def exDemo : EncodedExample := { input_ids := [], attention_mask := [], label := 0 }

/-- A concrete raw example used by witnesses. -/
def reviewDemo : Example := { text := "good movie", label := 1 }

/-! ## Batch-source lemmas -/

/-- With positive batch size and enough fuel, concatenating the chunks
gives back the input list. -/
theorem chunkFuel_join {α : Type} (B : ℕ) (hB : 0 < B) :
    ∀ (fuel : ℕ) (l : List α), l.length ≤ fuel → (chunkFuel B fuel l).flatten = l := by
  intro fuel
  induction fuel with
  | zero =>
    intro l h
    have hnil : l = [] := List.length_eq_zero.mp (Nat.le_zero.mp h)
    subst hnil
    simp [chunkFuel]
  | succ n ih =>
    intro l h
    cases l with
    | nil => simp [chunkFuel]
    | cons x xs =>
      have hd : ((x :: xs).drop B).length ≤ n := by
        simp only [List.length_drop, List.length_cons] at h ⊢
        omega
      simp only [chunkFuel, List.flatten_cons, ih _ hd]
      exact List.take_append_drop B (x :: xs)

/-- When the batch size divides the length, every chunk is full-size. -/
theorem chunkFuel_full {α : Type} (B : ℕ) (hB : 0 < B) :
    ∀ (fuel : ℕ) (l : List α), l.length ≤ fuel → B ∣ l.length →
      ∀ c ∈ chunkFuel B fuel l, c.length = B := by
  intro fuel
  induction fuel with
  | zero =>
    intro l h _ c hc
    have hnil : l = [] := List.length_eq_zero.mp (Nat.le_zero.mp h)
    subst hnil
    simp [chunkFuel] at hc
  | succ n ih =>
    intro l h hdvd c hc
    cases l with
    | nil => simp [chunkFuel] at hc
    | cons x xs =>
      have hBle : B ≤ (x :: xs).length := Nat.le_of_dvd (by simp) hdvd
      simp only [chunkFuel, List.mem_cons] at hc
      rcases hc with hc | hc
      · subst hc
        rw [List.length_take, min_eq_left hBle]
      · have hd : ((x :: xs).drop B).length ≤ n := by
          simp only [List.length_drop, List.length_cons] at h ⊢
          omega
        have hdvd' : B ∣ ((x :: xs).drop B).length := by
          simp only [List.length_drop]
          exact Nat.dvd_sub' hdvd dvd_rfl
        exact ih _ hd hdvd' c hc

/-- C5: for every Encoded-Example partition and batch size 8, the Batch
Source with `drop_last = true` (the training dataloader) yields only
batches of exactly 8 examples; the Batch Source with `drop_last = false`
(the validation dataloader) yields batches whose concatenation is exactly
the input partition, so every input example is covered exactly once. -/
theorem c5_batching : ∀ (l : List EncodedExample),
    (∀ b ∈ dataLoaderBatches batchSize trainDropLast l, b.length = batchSize) ∧
    (dataLoaderBatches batchSize valDropLast l).flatten = l ∧
    trainDropLast = true ∧ valDropLast = false := by
  intro l
  have hB : 0 < batchSize := by norm_num [batchSize]
  refine ⟨?_, ?_, rfl, rfl⟩
  · intro b hb
    have hmul : batchSize * (l.length / batchSize) ≤ l.length := by
      calc batchSize * (l.length / batchSize)
          = l.length / batchSize * batchSize := Nat.mul_comm _ _
        _ ≤ l.length := Nat.div_mul_le_self _ _
    have hlen : (l.take (batchSize * (l.length / batchSize))).length
        = batchSize * (l.length / batchSize) := by
      rw [List.length_take, min_eq_left hmul]
    have hdvd : batchSize ∣ (l.take (batchSize * (l.length / batchSize))).length := by
      rw [hlen]
      exact Dvd.intro _ rfl
    simp only [dataLoaderBatches, trainDropLast, if_true, chunkList] at hb
    exact chunkFuel_full batchSize hB _ _ le_rfl hdvd b hb
  · simp only [dataLoaderBatches, valDropLast, Bool.false_eq_true, if_false, chunkList]
    exact chunkFuel_join batchSize hB _ _ le_rfl

/-- Witness for C5 at a concrete 9-example partition. -/
theorem c5_batching_witness :
    (∀ b ∈ dataLoaderBatches batchSize trainDropLast (List.replicate 9 exDemo),
        b.length = batchSize) ∧
    (dataLoaderBatches batchSize valDropLast (List.replicate 9 exDemo)).flatten
        = List.replicate 9 exDemo ∧
    trainDropLast = true ∧ valDropLast = false :=
  c5_batching (List.replicate 9 exDemo)

/-! ## Filter invariant -/

/-- C6: the filter keeps an example iff its word count is under 300, and
any produced partition (a shuffled subsequence of a filtered pool, which
covers the train/validation split, the seeded shuffles and the `take`)
only holds examples of fewer than 300 words. -/
theorem c6_filter_invariant : ∀ (pool part : List Example),
    (∀ e : Example, e ∈ filterDataset pool ↔ e ∈ pool ∧ pyWordCount e.text < 300) ∧
    (List.Subperm part (filterDataset pool) → ∀ e ∈ part, pyWordCount e.text < 300) := by
  intro pool part
  constructor
  · intro e
    simp [filterDataset, List.mem_filter, filter_under_300_words]
  · intro hsub e he
    have hmem : e ∈ filterDataset pool := hsub.subset he
    have hkeep := (List.mem_filter.mp hmem).2
    simpa [filter_under_300_words] using hkeep

/-- Witness for C6 at a concrete one-example pool. -/
theorem c6_filter_invariant_witness :
    (reviewDemo ∈ filterDataset [reviewDemo] ↔
        reviewDemo ∈ [reviewDemo] ∧ pyWordCount reviewDemo.text < 300) ∧
    (∀ e ∈ [reviewDemo], pyWordCount e.text < 300) := by
  have hfd : filterDataset [reviewDemo] = [reviewDemo] := by decide
  constructor
  · exact (c6_filter_invariant [reviewDemo] [reviewDemo]).1 reviewDemo
  · refine (c6_filter_invariant [reviewDemo] [reviewDemo]).2 ⟨[reviewDemo], List.Perm.refl _, ?_⟩
    rw [hfd]

/-! ## Subsample size -/

/-- C7: partition construction either returns exactly 3000 examples (the
first 3000 of the shuffled filtered pool) or fails with an
insufficient-data error when the pool is smaller; it never returns a
smaller partition. -/
theorem c7_subsample_exact : ∀ (pool : List Example),
    (∀ part, buildPartition pool = Except.ok part → part.length = subsampleSize) ∧
    (pool.length < subsampleSize →
        buildPartition pool = Except.error "insufficient data") := by
  intro pool
  constructor
  · intro part h
    unfold buildPartition selectRange at h
    by_cases hle : subsampleSize ≤ pool.length
    · rw [if_pos hle] at h
      have htake : pool.take subsampleSize = part := by
        injection h
      subst htake
      rw [List.length_take, min_eq_left hle]
    · rw [if_neg hle] at h
      exact absurd h (by simp)
  · intro hlt
    unfold buildPartition selectRange
    rw [if_neg (by omega)]

/-- Witness for C7: a pool of exactly 3000 examples subsamples to length
3000, and the empty pool signals insufficient data. -/
theorem c7_subsample_exact_witness :
    ((List.replicate subsampleSize reviewDemo).take subsampleSize).length = subsampleSize ∧
    buildPartition ([] : List Example) = Except.error "insufficient data" := by
  constructor
  · refine (c7_subsample_exact (List.replicate subsampleSize reviewDemo)).1 _ ?_
    simp [buildPartition, selectRange]
  · exact (c7_subsample_exact []).2 (by norm_num [subsampleSize])

/-! ## Configuration errors and the averaging step -/

/-- Counterexample to C3: a five-example training partition (nonempty,
smaller than the batch size of 8, and with zero total training steps) is
accepted by the pre-loop setup with no error, and the epoch-average
division over the resulting zero-length Batch Source produces Python's
`ZeroDivisionError`, which is not the configuration-error signal the
claim requires before the Training Loop. -/
theorem c3_no_fail_fast_counterexample :
    trainSetup (List.replicate 5 exDemo) = Except.ok { numTrainingSteps := 0 } ∧
    (dataLoaderBatches batchSize trainDropLast (List.replicate 5 exDemo)).length = 0 ∧
    epochAvgLoss 0 ((dataLoaderBatches batchSize trainDropLast (List.replicate 5 exDemo)).length)
        = Except.error PyError.zeroDivisionError ∧
    Except.error PyError.zeroDivisionError
        ≠ (Except.error PyError.configError : Except PyError ℚ) := by
  refine ⟨rfl, rfl, rfl, ?_⟩
  intro h
  exact PyError.noConfusion (Except.error.inj h)

/-- C3 as amended: the notebook performs no pre-loop validation (setup
always succeeds, for any partition), and the divisions by the batch
counts are unguarded: on a zero-length Batch Source they raise
`ZeroDivisionError` (after the epoch's empty batch loop, not before the
Training Loop, and never a silent NaN), and otherwise return the exact
average. -/
theorem c3_division_behavior : ∀ (trainData : List EncodedExample) (total : ℚ),
    (∃ cfg, trainSetup trainData = Except.ok cfg) ∧
    epochAvgLoss total 0 = Except.error PyError.zeroDivisionError ∧
    (∀ k : ℕ, k ≠ 0 → epochAvgLoss total k = Except.ok (total / (k : ℚ))) := by
  intro trainData total
  refine ⟨⟨_, rfl⟩, rfl, ?_⟩
  intro k hk
  unfold epochAvgLoss
  rw [if_neg hk]

/-- Witness for the amended C3 at concrete inputs. -/
theorem c3_division_behavior_witness :
    (∃ cfg, trainSetup ([] : List EncodedExample) = Except.ok cfg) ∧
    epochAvgLoss 1 0 = Except.error PyError.zeroDivisionError ∧
    epochAvgLoss 1 1 = Except.ok 1 := by
  refine ⟨(c3_division_behavior [] 1).1, (c3_division_behavior [] 1).2.1, ?_⟩
  have h := (c3_division_behavior [] 1).2.2 1 one_ne_zero
  simpa using h

/-! ## Early-stop controller lemmas -/

/-- The improvement branch of the controller. -/
theorem observe_improve (s : ESState) (e : ℕ) (l : ℚ) (h : improves l s.best = true) :
    observe s e l = ({ best := some l, counter := 0, checkpoint := some e }, Signal.Continue) := by
  simp [observe, h]

/-- The non-improvement branch of the controller. -/
theorem observe_noimprove (s : ESState) (e : ℕ) (l : ℚ) (h : improves l s.best = false) :
    observe s e l = ({ s with counter := s.counter + 1 },
      if patience ≤ s.counter + 1 then Signal.Stop else Signal.Continue) := by
  simp [observe, h]

/-- On a strictly decreasing loss list, a run whose state the first loss
improves produces only `Continue` signals, and the best loss tracks each
observed value. -/
theorem runES_strict_dec :
    ∀ (l : List ℚ) (s : ESState) (e : ℕ),
      l.Chain' (fun a b => b < a) →
      (∀ x ∈ l.head?, improves x s.best = true) →
      (runES s e l).map Prod.snd = List.replicate l.length Signal.Continue ∧
      (runES s e l).map (fun r => r.1.best) = l.map some := by
  intro l
  induction l with
  | nil => intro s e _ _; simp [runES]
  | cons x xs ih =>
    intro s e hchain hhead
    have hx : improves x s.best = true := hhead x (by simp)
    have hobs := observe_improve s e x hx
    have hchain' : xs.Chain' (fun a b => b < a) := (List.chain'_cons'.mp hchain).2
    have hhead' : ∀ y ∈ xs.head?,
        improves y (({ best := some x, counter := 0, checkpoint := some e } : ESState)).best = true := by
      intro y hy
      have hyx : y < x := (List.chain'_cons'.mp hchain).1 y hy
      simp [improves, hyx]
    have hrec := ih ({ best := some x, counter := 0, checkpoint := some e }) (e + 1) hchain' hhead'
    simp only [runES, hobs, List.map_cons, List.length_cons, List.replicate_succ]
    exact ⟨by rw [hrec.1], by rw [hrec.2]⟩

/-- C1: the controller, started at infinite best loss with a zero
counter, behaves per epoch exactly as the notebook's early-stopping
check: on `avg_val_loss < best_val_loss` it records the new best, resets
the counter, persists the checkpoint, and continues; otherwise it
increments the counter and stops exactly when the incremented counter
reaches the patience of 2.  Hence a strictly decreasing loss sequence
yields `Continue` throughout with the best loss updated on each call, and
from any counter-0 state two consecutive non-improving losses yield
`Continue` then `Stop` on the second. -/
theorem c1_early_stop_controller :
    (∀ (s : ESState) (e : ℕ) (l : ℚ),
      (improves l s.best = true →
        observe s e l = ({ best := some l, counter := 0, checkpoint := some e }, Signal.Continue)) ∧
      (improves l s.best = false →
        (observe s e l).1 = { s with counter := s.counter + 1 } ∧
        ((observe s e l).2 = Signal.Stop ↔ patience ≤ s.counter + 1))) ∧
    (∀ l : List ℚ, l.Chain' (fun a b => b < a) →
      (runES initES 0 l).map Prod.snd = List.replicate l.length Signal.Continue ∧
      (runES initES 0 l).map (fun r => r.1.best) = l.map some) ∧
    (∀ (s : ESState) (e : ℕ) (a b : ℚ), s.counter = 0 →
      improves a s.best = false → improves b s.best = false →
      (runES s e [a, b]).map Prod.snd = [Signal.Continue, Signal.Stop]) := by
  refine ⟨?_, ?_, ?_⟩
  · intro s e l
    constructor
    · intro h
      exact observe_improve s e l h
    · intro h
      rw [observe_noimprove s e l h]
      refine ⟨rfl, ?_⟩
      by_cases hp : patience ≤ s.counter + 1
      · simp [hp]
      · simp [hp]
  · intro l hchain
    exact runES_strict_dec l initES 0 hchain (by intro x _; simp [initES, improves])
  · intro s e a b hc ha hb
    have h1 : observe s e a = ({ s with counter := s.counter + 1 }, Signal.Continue) := by
      rw [observe_noimprove s e a ha]
      simp [hc, patience]
    have hb1 : improves b (({ s with counter := s.counter + 1 } : ESState)).best = false := hb
    have h2 : observe ({ s with counter := s.counter + 1 }) (e + 1) b
        = ({ s with counter := s.counter + 1 + 1 }, Signal.Stop) := by
      rw [observe_noimprove _ _ _ hb1]
      simp [hc, patience]
    simp [runES, h1, h2]

/-- Witness for C1: a strictly decreasing run [3, 2, 1] continues
throughout with the best loss tracking it, and two non-improving losses
from a fresh-best state stop on the second. -/
theorem c1_early_stop_controller_witness :
    (runES initES 0 [3, 2, 1]).map Prod.snd = List.replicate 3 Signal.Continue ∧
    (runES initES 0 [3, 2, 1]).map (fun r => r.1.best) = [some 3, some 2, some 1] ∧
    (runES { best := some 1, counter := 0, checkpoint := some 2 } 3 [5, 5]).map Prod.snd
        = [Signal.Continue, Signal.Stop] := by
  have hchain : List.Chain' (fun a b : ℚ => b < a) [3, 2, 1] := by
    refine List.chain'_cons'.mpr ⟨?_, List.chain'_cons'.mpr ⟨?_, ?_⟩⟩ <;> norm_num
  refine ⟨?_, ?_, ?_⟩
  · exact (c1_early_stop_controller.2.1 [3, 2, 1] hchain).1
  · have h := (c1_early_stop_controller.2.1 [3, 2, 1] hchain).2
    simpa using h
  · exact c1_early_stop_controller.2.2
      { best := some 1, counter := 0, checkpoint := some 2 } 3 5 5 rfl (by decide) (by decide)

/-- On improvement the new best loss is the observed one. -/
theorem observe_fst_best_improve (s : ESState) (e : ℕ) (l : ℚ)
    (h : improves l s.best = true) : ((observe s e l).1).best = some l := by
  simp [observe, h]

/-- Without improvement the best loss is unchanged. -/
theorem observe_fst_best_noimprove (s : ESState) (e : ℕ) (l : ℚ)
    (h : improves l s.best = false) : ((observe s e l).1).best = s.best := by
  simp [observe, h]

/-- On improvement the checkpoint is overwritten with this epoch's
snapshot. -/
theorem observe_fst_checkpoint_improve (s : ESState) (e : ℕ) (l : ℚ)
    (h : improves l s.best = true) : ((observe s e l).1).checkpoint = some e := by
  simp [observe, h]

/-- Without improvement the checkpoint is untouched. -/
theorem observe_fst_checkpoint_noimprove (s : ESState) (e : ℕ) (l : ℚ)
    (h : improves l s.best = false) : ((observe s e l).1).checkpoint = s.checkpoint := by
  simp [observe, h]

/-- Without improvement the patience counter is incremented. -/
theorem observe_fst_counter_noimprove (s : ESState) (e : ℕ) (l : ℚ)
    (h : improves l s.best = false) : ((observe s e l).1).counter = s.counter + 1 := by
  simp [observe, h]

/-- Whether `x` improves on the best loss after folding a list is
whether it improves on the starting best and strictly undercuts every
observed loss. -/
theorem foldES_best_improves :
    ∀ (l : List ℚ) (s : ESState) (e : ℕ) (x : ℚ),
      improves x (foldES s e l).best = true ↔
        (improves x s.best = true ∧ ∀ y ∈ l, x < y) := by
  intro l
  induction l with
  | nil => intro s e x; simp [foldES]
  | cons y ys ih =>
    intro s e x
    simp only [foldES]
    rw [ih]
    cases hy : improves y s.best with
    | true =>
      rw [observe_fst_best_improve s e y hy]
      constructor
      · rintro ⟨h1, h2⟩
        have hxy : x < y := by simpa [improves] using h1
        have himpx : improves x s.best = true := by
          cases hs : s.best with
          | none => rfl
          | some b =>
            have hyb : y < b := by
              have h' := hy
              rw [hs] at h'
              simpa [improves] using h'
            simp only [improves, decide_eq_true_eq]
            exact lt_trans hxy hyb
        refine ⟨himpx, ?_⟩
        intro z hz
        rcases List.mem_cons.mp hz with hz | hz
        · exact hz ▸ hxy
        · exact h2 z hz
      · rintro ⟨h1, h2⟩
        have hxy : x < y := h2 y (List.mem_cons_self y ys)
        exact ⟨by simp [improves, hxy], fun z hz => h2 z (List.mem_cons_of_mem _ hz)⟩
    | false =>
      rw [observe_fst_best_noimprove s e y hy]
      constructor
      · rintro ⟨h1, h2⟩
        refine ⟨h1, ?_⟩
        intro z hz
        rcases List.mem_cons.mp hz with hz | hz
        · have hxy : x < y := by
            cases hs : s.best with
            | none =>
              rw [hs] at hy
              simp [improves] at hy
            | some b =>
              have hby : b ≤ y := by
                rw [hs] at hy
                simp only [improves, decide_eq_false_iff_not] at hy
                exact le_of_not_lt hy
              have hxb : x < b := by
                rw [hs] at h1
                simpa [improves] using h1
              exact lt_of_lt_of_le hxb hby
          exact hz ▸ hxy
        · exact h2 z hz
      · rintro ⟨h1, h2⟩
        exact ⟨h1, fun z hz => h2 z (List.mem_cons_of_mem _ hz)⟩

/-- The checkpoint slot only ever holds epochs already executed. -/
theorem foldES_checkpoint_lt :
    ∀ (l : List ℚ) (s : ESState) (e : ℕ),
      (∀ j, s.checkpoint = some j → j < e) →
      ∀ j, (foldES s e l).checkpoint = some j → j < e + l.length := by
  intro l
  induction l with
  | nil =>
    intro s e h j hj
    simp only [foldES] at hj
    simpa using h j hj
  | cons y ys ih =>
    intro s e h j hj
    simp only [foldES] at hj
    have hstep : ∀ k, ((observe s e y).1).checkpoint = some k → k < e + 1 := by
      intro k hk
      cases hy : improves y s.best with
      | true =>
        rw [observe_fst_checkpoint_improve s e y hy] at hk
        have hke : k = e := (Option.some.inj hk).symm
        omega
      | false =>
        rw [observe_fst_checkpoint_noimprove s e y hy] at hk
        exact lt_trans (h k hk) (Nat.lt_succ_self e)
    have hrec := ih _ (e + 1) hstep j hj
    simp only [List.length_cons]
    omega

/-- The head of a nonempty run is the first observation. -/
theorem runES_head (s : ESState) (e : ℕ) (x : ℚ) (rest : List ℚ) :
    (runES s e (x :: rest)).head? = some (observe s e x) := by
  cases hsig : (observe s e x).2 with
  | Continue => simp [runES, hsig]
  | Stop => simp [runES, hsig]

/-- A run over an appended list whose first part is all-`Continue`
splits into the run over the first part followed by the run from the
folded state. -/
theorem runES_append_of_continue :
    ∀ (pre rest : List ℚ) (s : ESState) (e : ℕ),
      (runES s e pre).map Prod.snd = List.replicate pre.length Signal.Continue →
      runES s e (pre ++ rest) = runES s e pre ++ runES (foldES s e pre) (e + pre.length) rest := by
  intro pre
  induction pre with
  | nil =>
    intro rest s e _
    simp [runES, foldES]
  | cons x xs ih =>
    intro rest s e h
    cases hsig : (observe s e x).2 with
    | Stop =>
      exfalso
      simp only [runES, hsig, List.map_cons, List.map_nil, List.length_cons,
        List.replicate_succ] at h
      simp at h
    | Continue =>
      simp only [List.cons_append, List.append_eq, runES, hsig, List.map_cons,
        List.length_cons, List.replicate_succ] at h ⊢
      have h2 : (runES (observe s e x).1 (e + 1) xs).map Prod.snd
          = List.replicate xs.length Signal.Continue := by
        injection h
      rw [ih rest _ (e + 1) h2]
      simp only [List.cons_append, List.append_eq, foldES, List.length_cons]
      have harith : e + 1 + xs.length = e + (xs.length + 1) := by omega
      rw [harith]

/-- If the trace is longer than a leading part of the losses, that part
ran all-`Continue`. -/
theorem runES_front_continue :
    ∀ (pre rest : List ℚ) (s : ESState) (e : ℕ),
      pre.length < (runES s e (pre ++ rest)).length →
      (runES s e pre).map Prod.snd = List.replicate pre.length Signal.Continue := by
  intro pre
  induction pre with
  | nil => intro rest s e _; simp [runES]
  | cons x xs ih =>
    intro rest s e h
    cases hsig : (observe s e x).2 with
    | Stop =>
      exfalso
      simp only [List.cons_append, List.append_eq, runES, hsig, List.length_cons,
        List.length_nil] at h
      omega
    | Continue =>
      have h' : xs.length < (runES (observe s e x).1 (e + 1) (xs ++ rest)).length := by
        simp only [List.cons_append, List.append_eq, runES, hsig, List.length_cons] at h
        omega
      simp only [runES, hsig, List.map_cons, List.length_cons, List.replicate_succ]
      rw [ih rest _ (e + 1) h']

/-- C2: in every executed epoch the decision is taken by `observe` on the
folded state, the single checkpoint slot is overwritten exactly when the
epoch's validation loss is strictly lower than every previously observed
one (so it is either left alone or replaced by this epoch's snapshot —
never more than one checkpoint is retained), and an epoch tying the
current best leaves the checkpoint alone while incrementing the patience
counter. -/
theorem c2_checkpoint_invariant (pre : List ℚ) (x : ℚ) (rest : List ℚ)
    (h : pre.length < (runES initES 0 (pre ++ x :: rest)).length) :
    ((runES initES 0 (pre ++ x :: rest)).drop pre.length).head?
        = some (observe (foldES initES 0 pre) pre.length x) ∧
    ((observe (foldES initES 0 pre) pre.length x).1.checkpoint
        ≠ (foldES initES 0 pre).checkpoint ↔ ∀ y ∈ pre, x < y) ∧
    ((observe (foldES initES 0 pre) pre.length x).1.checkpoint
        = (foldES initES 0 pre).checkpoint ∨
      (observe (foldES initES 0 pre) pre.length x).1.checkpoint = some pre.length) ∧
    ((foldES initES 0 pre).best = some x →
      (observe (foldES initES 0 pre) pre.length x).1.checkpoint
          = (foldES initES 0 pre).checkpoint ∧
      (observe (foldES initES 0 pre) pre.length x).1.counter
          = (foldES initES 0 pre).counter + 1) := by
  have hpref := runES_front_continue pre (x :: rest) initES 0 h
  have hsplit := runES_append_of_continue pre (x :: rest) initES 0 hpref
  have hlen1 : (runES initES 0 pre).length = pre.length := by
    have hlen := congrArg List.length hpref
    simpa using hlen
  have hchar : improves x (foldES initES 0 pre).best = true ↔ ∀ y ∈ pre, x < y := by
    rw [foldES_best_improves]
    simp [initES, improves]
  have hckpt : ∀ j, (foldES initES 0 pre).checkpoint = some j → j < pre.length := by
    have h0 : ∀ j, (initES).checkpoint = some j → j < 0 := by
      intro j hj
      simp [initES] at hj
    have hfc := foldES_checkpoint_lt pre initES 0 h0
    simpa using hfc
  refine ⟨?_, ?_, ?_, ?_⟩
  · rw [hsplit, List.drop_left' hlen1]
    have hz : 0 + pre.length = pre.length := Nat.zero_add _
    rw [hz]
    exact runES_head _ _ _ _
  · cases himp : improves x (foldES initES 0 pre).best with
    | true =>
      rw [observe_fst_checkpoint_improve _ _ _ himp]
      constructor
      · intro _
        exact hchar.mp himp
      · intro _ hcontra
        exact absurd (hckpt pre.length hcontra.symm) (lt_irrefl _)
    | false =>
      rw [observe_fst_checkpoint_noimprove _ _ _ himp]
      constructor
      · intro hne
        exact absurd rfl hne
      · intro hall
        exfalso
        have htrue : improves x (foldES initES 0 pre).best = true := hchar.mpr hall
        rw [himp] at htrue
        exact Bool.noConfusion htrue
  · cases himp : improves x (foldES initES 0 pre).best with
    | true => exact Or.inr (observe_fst_checkpoint_improve _ _ _ himp)
    | false => exact Or.inl (observe_fst_checkpoint_noimprove _ _ _ himp)
  · intro hbx
    have himp : improves x (foldES initES 0 pre).best = false := by
      rw [hbx]
      simp [improves]
    exact ⟨observe_fst_checkpoint_noimprove _ _ _ himp,
      observe_fst_counter_noimprove _ _ _ himp⟩

/-- Witness for C2: after observing [3, 2], a tying loss of 2 leaves the
checkpoint untouched and increments the patience counter. -/
theorem c2_checkpoint_invariant_witness :
    (observe (foldES initES 0 [3, 2]) 2 2).1.checkpoint
        = (foldES initES 0 [3, 2]).checkpoint ∧
    (observe (foldES initES 0 [3, 2]) 2 2).1.counter
        = (foldES initES 0 [3, 2]).counter + 1 := by
  have h : ([3, 2] : List ℚ).length < (runES initES 0 ([3, 2] ++ (2 : ℚ) :: [])).length := by
    decide
  exact (c2_checkpoint_invariant [3, 2] 2 [] h).2.2.2 (by decide)

/-! ## Evaluation-metric theorems -/

/-- C4: the Evaluation Procedure computes accuracy as correct/total,
precision as TP/(TP+FP) and recall as TP/(TP+FN) with the zero-denominator
convention 0, and its F1 agrees with 2·P·R/(P+R) under the same
convention; on labels [1,0,1,1] and predictions [1,0,0,1] this gives
accuracy 3/4, precision 1, recall 2/3 and F1 4/5. -/
theorem c4_metrics : ∀ (labels preds : List ℕ),
    accuracy_score labels preds
        = (countCorrect labels preds : ℚ) / ((labels.zip preds).length : ℚ) ∧
    precision_score labels preds
        = (if countTP labels preds + countFP labels preds = 0 then (0 : ℚ)
           else (countTP labels preds : ℚ)
             / ((countTP labels preds : ℚ) + (countFP labels preds : ℚ))) ∧
    recall_score labels preds
        = (if countTP labels preds + countFN labels preds = 0 then (0 : ℚ)
           else (countTP labels preds : ℚ)
             / ((countTP labels preds : ℚ) + (countFN labels preds : ℚ))) ∧
    f1_score labels preds
        = (if precision_score labels preds + recall_score labels preds = 0 then (0 : ℚ)
           else 2 * precision_score labels preds * recall_score labels preds
             / (precision_score labels preds + recall_score labels preds)) ∧
    (accuracy_score [1, 0, 1, 1] [1, 0, 0, 1] = 3 / 4 ∧
     precision_score [1, 0, 1, 1] [1, 0, 0, 1] = 1 ∧
     recall_score [1, 0, 1, 1] [1, 0, 0, 1] = 2 / 3 ∧
     f1_score [1, 0, 1, 1] [1, 0, 0, 1] = 4 / 5) := by
  intro labels preds
  refine ⟨rfl, rfl, rfl, ?_, ?_, ?_, ?_, ?_⟩
  · rcases Nat.eq_zero_or_pos (countTP labels preds) with ht | ht
    · simp [f1_score, precision_score, recall_score, ht]
    · have htf : countTP labels preds + countFP labels preds ≠ 0 := by omega
      have htn : countTP labels preds + countFN labels preds ≠ 0 := by omega
      have h2 : 2 * countTP labels preds + countFP labels preds
          + countFN labels preds ≠ 0 := by omega
      simp only [f1_score, precision_score, recall_score]
      rw [if_neg h2, if_neg htf, if_neg htn]
      have hQt : (0 : ℚ) < (countTP labels preds : ℚ) := by exact_mod_cast ht
      have hQtf : (0 : ℚ) < (countTP labels preds : ℚ) + (countFP labels preds : ℚ) :=
        add_pos_of_pos_of_nonneg hQt (Nat.cast_nonneg _)
      have hQtn : (0 : ℚ) < (countTP labels preds : ℚ) + (countFN labels preds : ℚ) :=
        add_pos_of_pos_of_nonneg hQt (Nat.cast_nonneg _)
      have hP : (0 : ℚ) < (countTP labels preds : ℚ)
          / ((countTP labels preds : ℚ) + (countFP labels preds : ℚ)) := div_pos hQt hQtf
      have hR : (0 : ℚ) < (countTP labels preds : ℚ)
          / ((countTP labels preds : ℚ) + (countFN labels preds : ℚ)) := div_pos hQt hQtn
      have h2Q : (0 : ℚ) < 2 * (countTP labels preds : ℚ) + (countFP labels preds : ℚ)
          + (countFN labels preds : ℚ) := by
        have h2t : (0 : ℚ) < 2 * (countTP labels preds : ℚ) := by linarith
        exact add_pos_of_pos_of_nonneg
          (add_pos_of_pos_of_nonneg h2t (Nat.cast_nonneg _)) (Nat.cast_nonneg _)
      rw [if_neg (add_pos hP hR).ne']
      field_simp
      ring
  · have hc : countCorrect [1, 0, 1, 1] [1, 0, 0, 1] = 3 := by decide
    have hl : (([1, 0, 1, 1] : List ℕ).zip ([1, 0, 0, 1] : List ℕ)).length = 4 := by decide
    simp only [accuracy_score, hc, hl]
    norm_num
  · have htp : countTP [1, 0, 1, 1] [1, 0, 0, 1] = 2 := by decide
    have hfp : countFP [1, 0, 1, 1] [1, 0, 0, 1] = 0 := by decide
    simp only [precision_score, htp, hfp]
    norm_num
  · have htp : countTP [1, 0, 1, 1] [1, 0, 0, 1] = 2 := by decide
    have hfn : countFN [1, 0, 1, 1] [1, 0, 0, 1] = 1 := by decide
    simp only [recall_score, htp, hfn]
    norm_num
  · have htp : countTP [1, 0, 1, 1] [1, 0, 0, 1] = 2 := by decide
    have hfp : countFP [1, 0, 1, 1] [1, 0, 0, 1] = 0 := by decide
    have hfn : countFN [1, 0, 1, 1] [1, 0, 0, 1] = 1 := by decide
    simp only [f1_score, htp, hfp, hfn]
    norm_num

/-! ## Inference-service theorems -/

/-- The softmax denominator is positive. -/
theorem exp_add_pos (a b : ℝ) : 0 < Real.exp a + Real.exp b :=
  add_pos (Real.exp_pos a) (Real.exp_pos b)

/-- The two softmax probabilities sum to one. -/
theorem softmax2_sum (a b : ℝ) : (softmax2 a b).1 + (softmax2 a b).2 = 1 := by
  simp only [softmax2]
  rw [div_add_div_same, div_self (exp_add_pos a b).ne']

/-- The first softmax probability is nonnegative. -/
theorem softmax2_fst_nonneg (a b : ℝ) : 0 ≤ (softmax2 a b).1 := by
  simp only [softmax2]
  positivity

/-- The second softmax probability is nonnegative. -/
theorem softmax2_snd_nonneg (a b : ℝ) : 0 ≤ (softmax2 a b).2 := by
  simp only [softmax2]
  positivity

/-- The confidence is the probability of the arg-max class, i.e. the
larger of the two probabilities. -/
theorem classifyConfidence_eq_max (a b : ℝ) :
    classifyConfidence a b = max (softmax2 a b).1 (softmax2 a b).2 := by
  unfold classifyConfidence classifyPrediction argmaxPair
  by_cases hlt : (softmax2 a b).1 < (softmax2 a b).2
  · rw [if_pos hlt, if_pos rfl, max_eq_right hlt.le]
  · rw [if_neg hlt, if_neg (by norm_num), max_eq_left (not_lt.mp hlt)]

/-- C8: the Inference Service computes a softmax distribution over the
two logits (summing to one), predicts its arg-max class, takes that
class's probability as the confidence — a value in [0,1] equal to the
larger probability — maps 0 to Negative and 1 to Positive, and renders
the string "<Label> (<confidence:2 decimal places> confidence)". -/
theorem c8_classify_contract : ∀ a b : ℝ,
    (softmax2 a b).1 + (softmax2 a b).2 = 1 ∧
    classifyConfidence a b = max (softmax2 a b).1 (softmax2 a b).2 ∧
    0 ≤ classifyConfidence a b ∧ classifyConfidence a b ≤ 1 ∧
    labelOf 0 = "Negative" ∧ labelOf 1 = "Positive" ∧
    classify_text a b
      = labelOf (classifyPrediction a b) ++ " (" ++
          renderHundredths (confRounded (classifyConfidence a b)) ++ " confidence)" := by
  intro a b
  have hsum := softmax2_sum a b
  have h1 := softmax2_fst_nonneg a b
  have h2 := softmax2_snd_nonneg a b
  have hmax := classifyConfidence_eq_max a b
  refine ⟨hsum, hmax, ?_, ?_, rfl, rfl, rfl⟩
  · rw [hmax]
    exact le_trans h1 (le_max_left _ _)
  · rw [hmax]
    apply max_le
    · linarith
    · linarith

/-- C9: the confidence returned for any logit pair is at least one half —
it is the larger entry of a two-element distribution summing to one. -/
theorem c9_confidence_at_least_half : ∀ a b : ℝ, 1 / 2 ≤ classifyConfidence a b := by
  intro a b
  have hsum := softmax2_sum a b
  have hmax := classifyConfidence_eq_max a b
  have hle1 := le_max_left (softmax2 a b).1 (softmax2 a b).2
  have hle2 := le_max_right (softmax2 a b).1 (softmax2 a b).2
  rw [hmax]
  linarith

/-- C10: the arg-max over the softmax probabilities equals the arg-max
over the raw logits, so the label predicted by `classify_text` agrees
with the prediction rule of the evaluation and test loops on identical
model outputs. -/
theorem c10_argmax_agreement : ∀ a b : ℝ, classifyPrediction a b = evalPrediction a b := by
  intro a b
  unfold classifyPrediction evalPrediction argmaxPair softmax2
  simp [div_lt_div_iff_of_pos_right (exp_add_pos a b), Real.exp_lt_exp]

end ImdbBert
